import Mathlib

/-!
Verification of the PlanIT ReAct reasoning loop.

Shallow embedding of `Backend/agents/react_agent.py` (class `ReActAgent`:
`process`, `_parse_tool_call`, `_clean_response`, `MAX_ITERATIONS`) and of
`Backend/agents/tools.py` (`execute_tool`, `search_web`).

Modelling conventions:
* Python strings are Lean `String`s; character-level work is done on `List Char`.
* The regular-expression character classes are modelled over the ASCII range
  (the patterns and the protocol strings in the source are ASCII).
* Exceptions are modelled by `PyResult`: `.ok v` is a normal return, `.exn m`
  is a raised exception carrying its rendered message `str(e)`.
* The Completion Backend (`llm.chat`) is a script indexed by call number, the
  deterministic fixed-script fake the specification itself prescribes for
  testing the loop.
* External effectful callables reached by `execute_tool` (the MCP server
  helpers, the RAG pipeline, the itinerary/expert agents, DuckDuckGo search)
  are fields of `ToolImpls`, each free to return or to raise.
-/

/- ## Character classes -/

/-- Left brace character, written via its code point. -/
def lbrace : Char := Char.ofNat 123

/-- Right brace character, written via its code point. -/
def rbrace : Char := Char.ofNat 125

/-- Single-quote character. -/
def squote : Char := Char.ofNat 39

/-- Double-quote character. -/
def dquote : Char := Char.ofNat 34

/-- Whitespace recognised both by the Python regex class backslash-s and by
`str.strip()`, restricted to ASCII: space, tab, newline, carriage return,
vertical tab, form feed. -/
def pyWS (c : Char) : Bool :=
  c = ' ' || c = '\t' || c = '\n' || c = '\r' || c = Char.ofNat 11 || c = Char.ofNat 12

/-- Word characters of the regex class backslash-w, ASCII range:
letters, digits, underscore. -/
def isWordChar (c : Char) : Bool :=
  c.isAlpha || c.isDigit || c = '_'

/-- Case-insensitive prefix test: does `s` start with the (lowercase) keyword
`kw`?  Models a literal match under `re.IGNORECASE`. -/
def ciStarts : List Char → List Char → Bool
  | [], _ => true
  | _ :: _, [] => false
  | k :: ks, c :: cs => c.toLower = k && ciStarts ks cs

/- ## Line splitting and joining (Python `str.split('\n')` / `'\n'.join`) -/

/-- Prepend a character to the first line of a nonempty line list. -/
def consHead (c : Char) : List (List Char) → List (List Char)
  | [] => [[c]]
  | l :: ls => (c :: l) :: ls

/-- Split on newline characters; models Python `s.split('\n')`.
Always returns a nonempty list; splitting the empty string gives one
empty line, exactly as in Python. -/
def splitNl : List Char → List (List Char)
  | [] => [[]]
  | c :: cs => if c = '\n' then [] :: splitNl cs else consHead c (splitNl cs)

/-- Join lines with newline characters; models Python `'\n'.join(lines)`. -/
def joinNl : List (List Char) → List Char
  | [] => []
  | [l] => l
  | l :: ls => l ++ '\n' :: joinNl ls

/-- Drop the maximal run of trailing `pyWS` characters. -/
def dropTrailWS : List Char → List Char
  | [] => []
  | c :: cs => if pyWS c && (dropTrailWS cs).isEmpty then [] else c :: dropTrailWS cs

/-- Python `str.strip()` over the ASCII whitespace set. -/
def pyStrip (l : List Char) : List Char :=
  dropTrailWS (l.dropWhile pyWS)

/- ## The `_clean_response` model -/

/-- True when the line matches the anchored pattern of optional leading
whitespace followed by the (lowercase) keyword, case-insensitively;
models `re.match(r'^\s*KW\s*', line, re.IGNORECASE)` viewed as a test. -/
def lineMatchKw (kw : List Char) (l : List Char) : Bool :=
  ciStarts kw (l.dropWhile pyWS)

/-- Line test for the `TOOL:` marker of `_clean_response`. -/
def isToolLine (l : List Char) : Bool := lineMatchKw "tool:".data l

/-- Line test for the `ARGS:` marker of `_clean_response`. -/
def isArgsLine (l : List Char) : Bool := lineMatchKw "args:".data l

/-- Python `line.strip().startswith('{')`. -/
def stripStartsLbrace (l : List Char) : Bool :=
  match l.dropWhile pyWS with
  | [] => false
  | c :: _ => c = lbrace

/-- Line filter of `_clean_response`: drop `TOOL:` lines (arming `skip`),
drop `ARGS:` lines (leaving `skip` untouched, as the Python `continue` does),
drop a brace-opening line while `skip` is armed, keep everything else and
disarm `skip`. -/
def cleanLines : List (List Char) → Bool → List (List Char)
  | [], _ => []
  | l :: ls, skip =>
    if isToolLine l then cleanLines ls true
    else if isArgsLine l then cleanLines ls skip
    else if skip && stripStartsLbrace l then cleanLines ls false
    else l :: cleanLines ls false

/-- Character-level body of `ReActAgent._clean_response`: split into lines,
drop tool-call syntax lines, re-join, strip. -/
def cleanResponseL (x : List Char) : List Char :=
  pyStrip (joinNl (cleanLines (splitNl x) false))

/-- Model of `ReActAgent._clean_response`. -/
def cleanResponse (s : String) : String :=
  String.mk (cleanResponseL s.data)

/- ## Regex search models for `_parse_tool_call` -/

/-- Leftmost regex search: try the pattern matcher `f` at every start
position of the text, in order, returning the first success.  Models
`re.search` for patterns that begin with a literal character (which can
never match at the empty end-of-string position). -/
def scanFirst {α : Type} (f : List Char → Option α) : List Char → Option α
  | [] => none
  | c :: cs =>
    match f (c :: cs) with
    | some a => some a
    | none => scanFirst f cs

/-- Anchored matcher for the pattern of a literal `TOOL:` (case-insensitive),
then greedy whitespace, then one or more word characters captured as the
group.  Since whitespace and word characters are disjoint, the greedy
no-backtracking reading is exact. -/
def toolAt (x : List Char) : Option (List Char) :=
  if ciStarts "tool:".data x then
    let w := ((x.drop 5).dropWhile pyWS).takeWhile isWordChar
    if w.isEmpty then none else some w
  else none

/-- Model of `re.search(r'TOOL:\s*(\w+)', response, re.IGNORECASE)` returning
the captured group; the Python code then calls `.strip()` on the group, which
is the identity on a run of word characters. -/
def findToolName (response : String) : Option String :=
  (scanFirst toolAt response.data).map String.mk

/-- Anchored matcher for the pattern of a literal `ARGS:` (case-insensitive),
greedy whitespace, then a brace block of one or more non-closing-brace
characters followed by the closing brace; the whole block (braces included)
is the captured group.  The character class excludes the closing brace, so
the block always ends at the first closing brace after the opening one, and
an immediately-closed empty block fails the one-or-more requirement. -/
def argsAt (x : List Char) : Option (List Char) :=
  if ciStarts "args:".data x then
    match (x.drop 5).dropWhile pyWS with
    | c :: r =>
      if c = lbrace then
        let body := r.takeWhile (fun d => d ≠ rbrace)
        if body.isEmpty || (r.drop body.length).isEmpty then none
        else some (lbrace :: body ++ [rbrace])
      else none
    | [] => none
  else none

/-- Model of the `ARGS:` block search of `_parse_tool_call` returning the
captured brace block. -/
def findArgsBlock (response : String) : Option (List Char) :=
  scanFirst argsAt response.data

/- ## JSON values and `json.loads` -/

/-- JSON values as produced by Python `json.loads`.  Numeric literals are
kept as their source lexeme, which is enough here because the loop only
stores, serializes and compares parsed arguments. -/
inductive Jval where
  | jnull
  | jbool (b : Bool)
  | jnum (lit : String)
  | jstr (s : String)
  | jarr (elems : List Jval)
  | jobj (fields : List (String × Jval))
deriving Repr

/-- Structural decidable equality for `Jval`. -/
def Jval.beq : Jval → Jval → Bool
  | .jnull, .jnull => true
  | .jbool a, .jbool b => a = b
  | .jnum a, .jnum b => a = b
  | .jstr a, .jstr b => a = b
  | .jarr a, .jarr b => beqList a b
  | .jobj a, .jobj b => beqFields a b
  | _, _ => false
where
  /-- Elementwise equality of value lists. -/
  beqList : List Jval → List Jval → Bool
    | [], [] => true
    | a :: as_, b :: bs => beq a b && beqList as_ bs
    | _, _ => false
  /-- Elementwise equality of field lists. -/
  beqFields : List (String × Jval) → List (String × Jval) → Bool
    | [], [] => true
    | (ka, va) :: as_, (kb, vb) :: bs => ka = kb && beq va vb && beqFields as_ bs
    | _, _ => false

/-- Argument mappings: the dictionaries `json.loads` builds from an object
literal, with insertion order of first key occurrence preserved. -/
abbrev Jobj := List (String × Jval)

/-- Python `dict.get(key, default)` on a parsed-object mapping. -/
def jget (o : Jobj) (k : String) (d : Jval) : Jval :=
  match o with
  | [] => d
  | (k0, v) :: rest => if k0 = k then v else jget rest k d

/-- Python dict insertion `d[k] = v`: overwrite in place if the key exists,
otherwise append. -/
def insertKV : Jobj → String → Jval → Jobj
  | [], k, v => [(k, v)]
  | (k0, v0) :: rest, k, v =>
    if k0 = k then (k0, v) :: rest else (k0, v0) :: insertKV rest k v

/-- Whitespace skipped between JSON tokens: exactly space, tab, newline,
carriage return, as in Python `json`. -/
def skipJWS : List Char → List Char
  | [] => []
  | c :: cs => if c = ' ' || c = '\t' || c = '\n' || c = '\r' then skipJWS cs else c :: cs

/-- Hexadecimal digit value, for the four-digit unicode escape. -/
def hexVal (c : Char) : Option Nat :=
  if '0' ≤ c && c ≤ '9' then some (c.toNat - 48)
  else if 'a' ≤ c && c ≤ 'f' then some (c.toNat - 87)
  else if 'A' ≤ c && c ≤ 'F' then some (c.toNat - 70)
  else none

/-- Parse the remainder of a JSON string literal (the opening quote already
consumed): returns the decoded content and the text following the closing
quote.  Rejects raw control characters and unknown escapes, as strict
Python `json.loads` does.  Surrogate pairing of unicode escapes is not
re-combined; no text in this development uses it. -/
def parseJStr : Nat → List Char → Option (List Char × List Char)
  | 0, _ => none
  | _ + 1, [] => none
  | fuel + 1, c :: cs =>
    if c = dquote then some ([], cs)
    else if c = '\\' then
      match cs with
      | [] => none
      | e :: cs2 =>
        let simpleEsc : Option Char :=
          if e = dquote then some dquote
          else if e = '\\' then some '\\'
          else if e = '/' then some '/'
          else if e = 'b' then some (Char.ofNat 8)
          else if e = 'f' then some (Char.ofNat 12)
          else if e = 'n' then some '\n'
          else if e = 'r' then some '\r'
          else if e = 't' then some '\t'
          else none
        match simpleEsc with
        | some d => (parseJStr fuel cs2).map (fun p => (d :: p.1, p.2))
        | none =>
          if e = 'u' then
            match cs2 with
            | h1 :: h2 :: h3 :: h4 :: cs3 =>
              match hexVal h1, hexVal h2, hexVal h3, hexVal h4 with
              | some a, some b, some c3, some d4 =>
                let n := ((a * 16 + b) * 16 + c3) * 16 + d4
                (parseJStr fuel cs3).map (fun p => (Char.ofNat n :: p.1, p.2))
              | _, _, _, _ => none
            | _ => none
          else none
    else if c.toNat < 32 then none
    else (parseJStr fuel cs).map (fun p => (c :: p.1, p.2))

/-- Lex a JSON number at the head of the text, per the JSON grammar
(optional minus, integer part without leading zeros, optional fraction,
optional exponent); returns the lexeme and the rest. -/
def lexJNum (x : List Char) : Option (List Char × List Char) :=
  let (neg, x1) := match x with
    | c :: cs => if c = '-' then ([c], cs) else ([], x)
    | [] => ([], x)
  match x1 with
  | [] => none
  | c :: cs =>
    if c = '0' then
      let (tail, rest) := lexFracExp cs
      some (neg ++ [c] ++ tail, rest)
    else if c.isDigit then
      let ds := cs.takeWhile Char.isDigit
      let rest0 := cs.drop ds.length
      let (tail, rest) := lexFracExp rest0
      some (neg ++ (c :: ds) ++ tail, rest)
    else none
where
  /-- Lex the optional fraction and exponent parts. -/
  lexFracExp (x : List Char) : List Char × List Char :=
    let (fr, x1) := match x with
      | c :: cs =>
        if c = '.' then
          match cs.takeWhile Char.isDigit with
          | [] => ([], x)
          | ds => (c :: ds, cs.drop ds.length)
        else ([], x)
      | [] => ([], x)
    let (ex, x2) := match x1 with
      | c :: cs =>
        if c = 'e' || c = 'E' then
          let (sgn, cs1) := match cs with
            | d :: ds => if d = '+' || d = '-' then ([d], ds) else ([], cs)
            | [] => ([], cs)
          match cs1.takeWhile Char.isDigit with
          | [] => ([], x1)
          | ds => (c :: sgn ++ ds, cs1.drop ds.length)
        else ([], x1)
      | [] => ([], x1)
    (fr ++ ex, x2)

/-- Exact-prefix literal test returning the remainder. -/
def litAt (w : List Char) (x : List Char) : Option (List Char) :=
  match w, x with
  | [], rest => some rest
  | _ :: _, [] => none
  | k :: ks, c :: cs => if c = k then litAt ks cs else none

/-- Work items of the JSON parser: parse a value, parse the fields of an
object literal (first field position already reached), or parse the elements
of an array literal. -/
inductive JTask where
  | val (x : List Char)
  | fields (x : List Char) (acc : Jobj)
  | elems (x : List Char) (acc : List Jval)

/-- Recursive-descent JSON parser, structurally recursive on a fuel counter
so that it reduces definitionally.  At most two fuel units are spent per
consumed input character, so a fuel of twice the input length plus four
never runs out before success or a genuine syntax error.  Covers the strict
JSON grammar plus the `NaN`, `Infinity` and `-Infinity` literals Python
`json.loads` accepts by default; object keys follow Python dict semantics
where a duplicate key overwrites the earlier value. -/
def parseJ : Nat → JTask → Option (Jval × List Char)
  | 0, _ => none
  | f + 1, .val x =>
    match skipJWS x with
    | [] => none
    | c :: cs =>
      if c = dquote then
        match parseJStr (f + 1) cs with
        | some (content, rest) => some (.jstr (String.mk content), rest)
        | none => none
      else if c = lbrace then
        match skipJWS cs with
        | d :: ds => if d = rbrace then some (.jobj [], ds) else parseJ f (.fields (d :: ds) [])
        | [] => none
      else if c = '[' then
        match skipJWS cs with
        | d :: ds => if d = ']' then some (.jarr [], ds) else parseJ f (.elems (d :: ds) [])
        | [] => none
      else
        match litAt "true".data (c :: cs) with
        | some rest => some (.jbool true, rest)
        | none =>
        match litAt "false".data (c :: cs) with
        | some rest => some (.jbool false, rest)
        | none =>
        match litAt "null".data (c :: cs) with
        | some rest => some (.jnull, rest)
        | none =>
        match litAt "NaN".data (c :: cs) with
        | some rest => some (.jnum "NaN", rest)
        | none =>
        match litAt "Infinity".data (c :: cs) with
        | some rest => some (.jnum "Infinity", rest)
        | none =>
        match litAt "-Infinity".data (c :: cs) with
        | some rest => some (.jnum "-Infinity", rest)
        | none =>
        match lexJNum (c :: cs) with
        | some (lit, rest) => some (.jnum (String.mk lit), rest)
        | none => none
  | f + 1, .fields x acc =>
    match x with
    | [] => none
    | c :: cs =>
      if c = dquote then
        match parseJStr (f + 1) cs with
        | none => none
        | some (key, rest) =>
          match skipJWS rest with
          | ':' :: rest2 =>
            match parseJ f (.val rest2) with
            | none => none
            | some (v, rest3) =>
              let acc2 := insertKV acc (String.mk key) v
              match skipJWS rest3 with
              | ',' :: rest4 => parseJ f (.fields (skipJWS rest4) acc2)
              | d :: rest4 => if d = rbrace then some (.jobj acc2, rest4) else none
              | [] => none
          | _ => none
      else none
  | f + 1, .elems x acc =>
    match parseJ f (.val x) with
    | none => none
    | some (v, rest) =>
      match skipJWS rest with
      | ',' :: rest2 => parseJ f (.elems rest2 (acc ++ [v]))
      | d :: rest2 => if d = ']' then some (.jarr (acc ++ [v]), rest2) else none
      | [] => none

/-- Model of Python `json.loads`: parse one value and require only whitespace
to follow. -/
def jsonLoads (s : String) : Option Jval :=
  match parseJ (2 * s.length + 4) (.val s.data) with
  | some (v, rest) => if (skipJWS rest).isEmpty then some v else none
  | none => none

/- ## `_parse_tool_call` -/

/-- The quote normalization of `_parse_tool_call`:
`args_str.replace("'", '"')`, an unconditional substitution of every
single quote by a double quote. -/
def fixQuotes (l : List Char) : List Char :=
  l.map (fun c => if c = squote then dquote else c)

/-- Argument extraction of `_parse_tool_call`: starting from the empty
mapping, if the `ARGS:` block pattern matched, normalize quotes and attempt
`json.loads`; on a decode error the mapping stays empty (the
`except json.JSONDecodeError: pass` path). -/
def argsOf (response : String) : Jobj :=
  match findArgsBlock response with
  | none => []
  | some block =>
    match jsonLoads (String.mk (fixQuotes block)) with
    | some (Jval.jobj o) => o
    | _ => []

/-- Model of `ReActAgent._parse_tool_call`: a tool-name match yields
`some (name, arguments)`; with no tool-name match the response is not a tool
call. -/
def parse_tool_call (response : String) : Option (String × Jobj) :=
  match findToolName response with
  | none => none
  | some name => some (name, argsOf response)

/- ## Python call results and the tool executor (`Backend/agents/tools.py`) -/

/-- Outcome of a Python call: a normal return, or a raised exception carrying
its rendered message `str(e)`. -/
inductive PyResult (α : Type) where
  | ok (val : α)
  | exn (msg : String)
deriving Repr

/-- Behaviours of the external callables `execute_tool` dispatches to: the
MCP-server helpers, the RAG knowledge-search body (the whole inner `try`
block, treated as one external tool as the vector pipeline is out of scope),
the itinerary and local-expert agents, and the two DuckDuckGo text-search
calls made by `search_web` (with and without the region restriction).
Every field may return or raise. -/
structure ToolImpls where
  search_destinations : Jval → Jval → Jval → PyResult Jobj
  get_weather_forecast : Jval → Jval → PyResult Jobj
  calculate_trip_budget : Jval → Jval → Jval → Jval → Jval → PyResult Jobj
  get_local_attractions : Jval → Jval → PyResult Jobj
  search_knowledge_body : Jobj → PyResult Jobj
  quick_itinerary : Jval → Jval → PyResult Jobj
  get_hidden_gems : Jval → PyResult Jobj
  get_local_tips : Jval → PyResult Jobj
  get_best_times : Jval → PyResult Jobj
  get_all_tips : Jval → PyResult Jobj
  ddgs_text_region : Jval → PyResult (List Jval)
  ddgs_text_noregion : Jval → PyResult (List Jval)

/-- Model of `tools.search_web`: try the region-restricted search, fall back
to the unrestricted one on an empty result list, report a structured error
when both are empty, and convert any raised exception into the fixed
unavailability error (the function's own `try`/`except`). -/
def search_web (impls : ToolImpls) (query : Jval) : Jobj :=
  let unavailable : Jobj :=
    [("error", .jstr "Web search currently unavailable. Please try again later.")]
  let okResult (results : List Jval) : Jobj :=
    [("query", query), ("results", .jarr results), ("source", .jstr "web_search")]
  match impls.ddgs_text_region query with
  | .exn _ => unavailable
  | .ok results =>
    if results.isEmpty then
      match impls.ddgs_text_noregion query with
      | .exn _ => unavailable
      | .ok results2 =>
        if results2.isEmpty then [("error", .jstr "No results found.")]
        else okResult results2
    else okResult results

/-- The dispatch chain inside the `try` block of `execute_tool`, including
each branch's argument extraction with its Python defaults, the inner
`try`/`except` of the `search_knowledge` branch, the `tip_type` dispatch of
the `get_local_tips` branch, and the final unknown-tool return. -/
def execute_tool_body (impls : ToolImpls) (tool_name : String) (arguments : Jobj) :
    PyResult Jobj :=
  if tool_name = "search_destinations" then
    impls.search_destinations (jget arguments "query" (.jstr ""))
      (jget arguments "budget" (.jstr "moderate"))
      (jget arguments "travel_style" .jnull)
  else if tool_name = "get_weather" then
    impls.get_weather_forecast (jget arguments "location" (.jstr ""))
      (jget arguments "date" .jnull)
  else if tool_name = "calculate_budget" then
    impls.calculate_trip_budget (jget arguments "destination" (.jstr ""))
      (jget arguments "days" (.jnum "1"))
      (jget arguments "travelers" (.jnum "1"))
      (jget arguments "travel_style" (.jstr "moderate"))
      (jget arguments "currency" (.jstr "USD"))
  else if tool_name = "get_attractions" then
    impls.get_local_attractions (jget arguments "destination" (.jstr ""))
      (jget arguments "category" (.jstr "all"))
  else if tool_name = "search_knowledge" then
    match impls.search_knowledge_body arguments with
    | .ok r => .ok r
    | .exn e => .ok [("error", .jstr ("Knowledge search unavailable: " ++ e))]
  else if tool_name = "create_itinerary" then
    impls.quick_itinerary (jget arguments "destination" (.jstr ""))
      (jget arguments "days" (.jnum "3"))
  else if tool_name = "get_local_tips" then
    let tip_type := jget arguments "tip_type" (.jstr "all")
    let destination := jget arguments "destination" (.jstr "")
    if tip_type.beq (.jstr "hidden_gems") then impls.get_hidden_gems destination
    else if tip_type.beq (.jstr "local_tips") then impls.get_local_tips destination
    else if tip_type.beq (.jstr "money_saving") then
      match impls.get_local_tips destination with
      | .exn e => .exn e
      | .ok tips =>
        .ok [("destination", destination),
             ("money_saving", jget tips "money_saving" (.jarr []))]
    else if tip_type.beq (.jstr "best_times") then impls.get_best_times destination
    else impls.get_all_tips destination
  else if tool_name = "search_web" then
    .ok (search_web impls (jget arguments "query" (.jstr "")))
  else
    .ok [("error", .jstr ("Unknown tool: " ++ tool_name))]

/-- Model of `tools.execute_tool`: the dispatch chain wrapped in the outer
`try`/`except Exception`, which converts any raised exception into the
structured result holding `str(e)`. -/
def execute_tool (impls : ToolImpls) (tool_name : String) (arguments : Jobj) :
    PyResult Jobj :=
  match execute_tool_body impls tool_name arguments with
  | .ok r => .ok r
  | .exn e => .ok [("error", .jstr e)]

/- ## The ReAct loop (`Backend/agents/react_agent.py`) -/

/-- Iteration cap of the loop: `ReActAgent.MAX_ITERATIONS = 8`. -/
def MAX_ITERATIONS : Nat := 8

/-- One entry of the `tool_calls` list built by `ReActAgent.process`. -/
structure ToolCallRecord where
  tool : String
  arguments : Jobj
  result : Jobj
deriving Repr

/-- The dictionary `ReActAgent.process` returns.  The natural-termination
return statement has no `max_iterations_reached` key; key absence is
modelled by `none` and the forced-finish path's `True` by `some true`. -/
structure LoopResult where
  response : String
  tool_calls : List ToolCallRecord
  iterations : Nat
  max_iterations_reached : Option Bool
deriving Repr

/-- Body of the `while iterations < MAX_ITERATIONS` loop of
`ReActAgent.process`, recursing on the remaining iteration budget.
`script` is the Completion Backend scripted by call index `k`; a `.exn`
response models `llm.chat` raising, which the loop does not catch.
The accumulated context and conversation history only feed prompt text
and observability, never the control flow against a call-indexed script,
so they are not part of the recursion state. -/
def processAux (impls : ToolImpls) (script : Nat → PyResult String) :
    Nat → Nat → Nat → List ToolCallRecord → PyResult LoopResult
  | 0, iters, k, calls =>
    match script k with
    | .exn e => .exn e
    | .ok finalResp => .ok ⟨cleanResponse finalResp, calls, iters, some true⟩
  | remaining + 1, iters, k, calls =>
    match script k with
    | .exn e => .exn e
    | .ok resp =>
      match parse_tool_call resp with
      | some (name, args) =>
        match execute_tool impls name args with
        | .exn e => .exn e
        | .ok result =>
          processAux impls script remaining (iters + 1) (k + 1)
            (calls ++ [⟨name, args, result⟩])
      | none => .ok ⟨cleanResponse resp, calls, iters + 1, none⟩

/-- Model of `ReActAgent.process`: run the loop from a fresh state with the
full iteration budget; after the budget is exhausted, one extra scripted
call produces the forced final answer. -/
def process (impls : ToolImpls) (script : Nat → PyResult String) : PyResult LoopResult :=
  processAux impls script MAX_ITERATIONS 0 0 []

/- ## Concrete instances for closed runs -/

/-- Concrete tool behaviours used to instantiate the loop on closed runs. -/
def stubImpls : ToolImpls where
  search_destinations := fun _ _ _ => .ok [("stub", .jbool true)]
  get_weather_forecast := fun _ _ => .ok [("temperature", .jnum "20")]
  calculate_trip_budget := fun _ _ _ _ _ => .ok [("total", .jnum "100")]
  get_local_attractions := fun _ _ => .ok [("stub", .jbool true)]
  search_knowledge_body := fun _ => .ok [("stub", .jbool true)]
  quick_itinerary := fun _ _ => .ok [("stub", .jbool true)]
  get_hidden_gems := fun _ => .ok [("stub", .jbool true)]
  get_local_tips := fun _ => .ok [("stub", .jbool true)]
  get_best_times := fun _ => .ok [("stub", .jbool true)]
  get_all_tips := fun _ => .ok [("stub", .jbool true)]
  ddgs_text_region := fun _ => .ok [.jstr "result"]
  ddgs_text_noregion := fun _ => .ok [.jstr "result"]

/-- A scripted response that requests the `get_weather` tool. -/
def weatherToolResp : String :=
  "TOOL: get_weather\nARGS: \x7b\x22location\x22: \x22Paris\x22\x7d"

/- ## Helper lemmas about the executor -/

/-- The outer `try`/`except` of `execute_tool` turns every dispatch outcome
into a normal return. -/
theorem execute_tool_isOk (impls : ToolImpls) (n : String) (a : Jobj) :
    ∃ o, execute_tool impls n a = PyResult.ok o := by
  unfold execute_tool
  cases execute_tool_body impls n a <;> exact ⟨_, rfl⟩

/-- C2: for every tool name (known or unknown) and every argument mapping,
`execute_tool` returns a mapping and never propagates an exception to its
caller, even when the underlying tool executor raises. -/
theorem execute_tool_never_raises (impls : ToolImpls) (name : String) (args : Jobj) :
    ∃ result : Jobj, execute_tool impls name args = PyResult.ok result :=
  execute_tool_isOk impls name args

/- ## The unknown-tool message (C5) -/

/-- Tool names recognised by the dispatch chain of `execute_tool`. -/
def dispatchNames : List String :=
  ["search_destinations", "get_weather", "calculate_budget", "get_attractions",
   "search_knowledge", "create_itinerary", "get_local_tips", "search_web"]

/-- C5 counterexample: at the unknown name `nonexistent_tool` the executor
returns the structured error whose message is `Unknown tool: ...` with a
capital `U`, which is not the exact message text `unknown tool: ...` the
claim states. -/
theorem unknown_tool_message_counterexample :
    execute_tool stubImpls "nonexistent_tool" [] =
      PyResult.ok [("error", Jval.jstr "Unknown tool: nonexistent_tool")] ∧
    "Unknown tool: nonexistent_tool" ≠ "unknown tool: nonexistent_tool" :=
  ⟨rfl, by decide⟩

/-- C5 amended: for every tool name outside the dispatch chain and every
argument mapping, `execute_tool` returns the structured error result whose
message is `Unknown tool: <name>` (capital `U`), and never raises. -/
theorem unknown_tool_structured_error (impls : ToolImpls) (name : String) (args : Jobj)
    (h : name ∉ dispatchNames) :
    execute_tool impls name args =
      PyResult.ok [("error", Jval.jstr ("Unknown tool: " ++ name))] := by
  simp only [dispatchNames, List.mem_cons, List.not_mem_nil, or_false, not_or] at h
  obtain ⟨h1, h2, h3, h4, h5, h6, h7, h8⟩ := h
  simp [execute_tool, execute_tool_body, h1, h2, h3, h4, h5, h6, h7, h8]

/-- C5 amended, witnessed at the concrete unknown name `nonexistent_tool`. -/
theorem unknown_tool_structured_error_witness :
    execute_tool stubImpls "nonexistent_tool" [] =
      PyResult.ok [("error", Jval.jstr "Unknown tool: nonexistent_tool")] :=
  unknown_tool_structured_error stubImpls "nonexistent_tool" [] (by decide)

/- ## The quote-normalization bug (C9) -/

/-- The well-formed, double-quoted JSON argument block whose string value
contains an apostrophe. -/
def apostropheBlock : List Char :=
  "\x7b\x22query\x22: \x22traveler".data ++ [squote] ++ "s tips\x22\x7d".data

/-- A model response carrying `apostropheBlock` as its `ARGS:` block. -/
def apostropheResp : String :=
  "TOOL: search_web\nARGS: " ++ String.mk apostropheBlock

/-- C9: the parser captures the well-formed apostrophe-carrying block, whose
raw text is valid JSON with the expected single field, yet the unconditional
single-quote-to-double-quote substitution makes it unparseable and
`_parse_tool_call` silently returns the tool name with an empty argument
mapping. -/
theorem quote_normalization_drops_valid_args :
    findArgsBlock apostropheResp = some apostropheBlock ∧
    jsonLoads (String.mk apostropheBlock) =
      some (Jval.jobj [("query", Jval.jstr ("traveler" ++ String.mk [squote] ++ "s tips"))]) ∧
    parse_tool_call apostropheResp = some ("search_web", []) :=
  ⟨rfl, rfl, rfl⟩

/- ## Generalized loop lemmas -/

/-- Invariant of a successful run of the loop body: the resulting tool-call
list extends the accumulated one by records that correspond, in order and
one-to-one, to the scripted calls consumed from index `k`; the iteration
count stays within the remaining budget; and the budget flag is absent
unless the budget ran out exactly. -/
theorem processAux_ok_spec (impls : ToolImpls) (script : Nat → PyResult String) :
    ∀ remaining iters k calls res,
      processAux impls script remaining iters k calls = PyResult.ok res →
      ∃ extra, res.tool_calls = calls ++ extra ∧
        res.iterations ≤ iters + remaining ∧
        iters + extra.length ≤ res.iterations ∧
        (1 ≤ remaining → iters + 1 ≤ res.iterations) ∧
        (res.max_iterations_reached = none ∨
          (res.max_iterations_reached = some true ∧ res.iterations = iters + remaining)) ∧
        (∀ i, (hi : i < extra.length) →
          ∃ r p out, script (k + i) = PyResult.ok r ∧ parse_tool_call r = some p ∧
            execute_tool impls p.1 p.2 = PyResult.ok out ∧
            extra.get ⟨i, hi⟩ = ⟨p.1, p.2, out⟩) := by
  intro remaining
  induction remaining with
  | zero =>
    intro iters k calls res h
    simp only [processAux] at h
    cases hs : script k with
    | exn e =>
      simp only [hs] at h
      exact absurd h (by simp)
    | ok r =>
      simp only [hs] at h
      injection h with h2
      subst h2
      refine ⟨[], by simp, by simp, by simp, by simp, Or.inr ⟨rfl, by simp⟩, ?_⟩
      intro i hi
      exact absurd hi (by simp)
  | succ rem ih =>
    intro iters k calls res h
    simp only [processAux] at h
    cases hs : script k with
    | exn e =>
      simp only [hs] at h
      exact absurd h (by simp)
    | ok r =>
      simp only [hs] at h
      cases hp : parse_tool_call r with
      | none =>
        simp only [hp] at h
        injection h with h2
        subst h2
        refine ⟨[], by simp, ?_, by simp, ?_, Or.inl rfl, ?_⟩
        · show iters + 1 ≤ iters + (rem + 1)
          omega
        · intro _
          show iters + 1 ≤ iters + 1
          omega
        · intro i hi
          exact absurd hi (by simp)
      | some p =>
        simp only [hp] at h
        obtain ⟨name, args⟩ := p
        cases he : execute_tool impls name args with
        | exn e =>
          simp only [he] at h
          exact absurd h (by simp)
        | ok out =>
          simp only [he] at h
          obtain ⟨extra, hcalls, hub, hlb, _, hflag, horder⟩ :=
            ih (iters + 1) (k + 1) (calls ++ [⟨name, args, out⟩]) res h
          refine ⟨⟨name, args, out⟩ :: extra, ?_, by omega, ?_, ?_, ?_, ?_⟩
          · rw [hcalls]
            simp
          · simp only [List.length_cons]
            omega
          · intro _
            omega
          · rcases hflag with hf | ⟨hf, hit⟩
            · exact Or.inl hf
            · exact Or.inr ⟨hf, by omega⟩
          · intro i hi
            cases i with
            | zero =>
              refine ⟨r, (name, args), out, ?_, hp, he, rfl⟩
              simpa using hs
            | succ j =>
              obtain ⟨r2, p2, out2, hs2, hp2, he2, hg2⟩ :=
                horder j (by simpa using hi)
              refine ⟨r2, p2, out2, ?_, hp2, he2, ?_⟩
              · have hkj : k + 1 + j = k + (j + 1) := by omega
                rwa [hkj] at hs2
              · simpa using hg2

/-- When the scripted response of every remaining iteration parses as a tool
call, the loop runs the budget to exhaustion and the extra scripted call
supplies the forced final answer. -/
theorem processAux_all_tool_calls (impls : ToolImpls) (script : Nat → PyResult String) :
    ∀ remaining iters k calls,
      (∀ j, j < remaining → ∃ r p, script (k + j) = PyResult.ok r ∧ parse_tool_call r = some p) →
      ∀ f, script (k + remaining) = PyResult.ok f →
        ∃ calls2, processAux impls script remaining iters k calls =
          PyResult.ok ⟨cleanResponse f, calls2, iters + remaining, some true⟩ := by
  intro remaining
  induction remaining with
  | zero =>
    intro iters k calls _ f hf
    rw [show k + 0 = k by omega] at hf
    exact ⟨calls, by simp only [processAux, hf, Nat.add_zero]⟩
  | succ rem ih =>
    intro iters k calls hall f hf
    obtain ⟨r, p, hs, hp⟩ := hall 0 (by omega)
    rw [show k + 0 = k by omega] at hs
    obtain ⟨name, args⟩ := p
    obtain ⟨out, hout⟩ := execute_tool_isOk impls name args
    have hall2 : ∀ j, j < rem →
        ∃ r2 p2, script (k + 1 + j) = PyResult.ok r2 ∧ parse_tool_call r2 = some p2 := by
      intro j hj
      obtain ⟨r2, p2, h1, h2⟩ := hall (j + 1) (by omega)
      exact ⟨r2, p2, by rwa [show k + (j + 1) = k + 1 + j by omega] at h1, h2⟩
    have hf2 : script (k + 1 + rem) = PyResult.ok f := by
      rwa [show k + (rem + 1) = k + 1 + rem by omega] at hf
    obtain ⟨calls2, hres⟩ := ih (iters + 1) (k + 1) (calls ++ [⟨name, args, out⟩]) hall2 f hf2
    refine ⟨calls2, ?_⟩
    simp only [processAux, hs, hp, hout]
    rw [hres]
    have harith : iters + 1 + rem = iters + (rem + 1) := by omega
    rw [harith]

/-- When every scripted response before call `j` parses as a tool call and
the `j`-th scripted call raises, the loop reaches that call and the raised
exception propagates unchanged. -/
theorem processAux_exn (impls : ToolImpls) (script : Nat → PyResult String) (e : String) :
    ∀ remaining j iters k calls, j ≤ remaining →
      (∀ i, i < j → ∃ r p, script (k + i) = PyResult.ok r ∧ parse_tool_call r = some p) →
      script (k + j) = PyResult.exn e →
      processAux impls script remaining iters k calls = PyResult.exn e := by
  intro remaining
  induction remaining with
  | zero =>
    intro j iters k calls hj _ herr
    have hj0 : j = 0 := by omega
    subst hj0
    rw [show k + 0 = k by omega] at herr
    simp only [processAux, herr]
  | succ rem ih =>
    intro j iters k calls hj hpre herr
    cases j with
    | zero =>
      rw [show k + 0 = k by omega] at herr
      simp only [processAux, herr]
    | succ j2 =>
      obtain ⟨r, p, hs, hp⟩ := hpre 0 (by omega)
      rw [show k + 0 = k by omega] at hs
      obtain ⟨name, args⟩ := p
      obtain ⟨out, hout⟩ := execute_tool_isOk impls name args
      have hpre2 : ∀ i, i < j2 →
          ∃ r2 p2, script (k + 1 + i) = PyResult.ok r2 ∧ parse_tool_call r2 = some p2 := by
        intro i hi
        obtain ⟨r2, p2, h1, h2⟩ := hpre (i + 1) (by omega)
        exact ⟨r2, p2, by rwa [show k + (i + 1) = k + 1 + i by omega] at h1, h2⟩
      have herr2 : script (k + 1 + j2) = PyResult.exn e := by
        rwa [show k + (j2 + 1) = k + 1 + j2 by omega] at herr
      simp only [processAux, hs, hp, hout]
      exact ih j2 (iters + 1) (k + 1) (calls ++ [⟨name, args, out⟩]) (by omega) hpre2 herr2

/- ## C1: the iteration budget -/

/-- C1: a single invocation of `ReActAgent.process` performs at most
`MAX_ITERATIONS = 8` loop iterations; and when every scripted response
contains a tool-call pattern, the loop terminates exactly at the iteration
bound with the forced-finish flag set to `true`, never exceeding the
bound. -/
theorem iteration_budget_enforced (impls : ToolImpls) (script : Nat → PyResult String) :
    (∀ res, process impls script = PyResult.ok res → res.iterations ≤ MAX_ITERATIONS) ∧
    ((∀ k, k < MAX_ITERATIONS → ∃ r p, script k = PyResult.ok r ∧ parse_tool_call r = some p) →
      ∀ f, script MAX_ITERATIONS = PyResult.ok f →
        ∃ calls, process impls script =
          PyResult.ok ⟨cleanResponse f, calls, MAX_ITERATIONS, some true⟩) := by
  constructor
  · intro res h
    obtain ⟨extra, _, hub, _⟩ :=
      processAux_ok_spec impls script MAX_ITERATIONS 0 0 [] res h
    simpa using hub
  · intro hall f hf
    have h0 : ∀ j, j < MAX_ITERATIONS →
        ∃ r p, script (0 + j) = PyResult.ok r ∧ parse_tool_call r = some p := by
      intro j hj
      simpa using hall j hj
    have hf0 : script (0 + MAX_ITERATIONS) = PyResult.ok f := by simpa using hf
    obtain ⟨calls2, hres⟩ :=
      processAux_all_tool_calls impls script MAX_ITERATIONS 0 0 [] h0 f hf0
    refine ⟨calls2, ?_⟩
    rw [show (0 : Nat) + MAX_ITERATIONS = MAX_ITERATIONS from by simp] at hres
    exact hres

/-- C1 witnessed on the concrete script that always answers with the
`get_weather` tool call: the run stops exactly at the bound, forced. -/
theorem iteration_budget_enforced_witness :
    ∃ calls, process stubImpls (fun _ => PyResult.ok weatherToolResp) =
      PyResult.ok ⟨cleanResponse weatherToolResp, calls, MAX_ITERATIONS, some true⟩ :=
  (iteration_budget_enforced stubImpls (fun _ => PyResult.ok weatherToolResp)).2
    (fun _ _ => ⟨weatherToolResp, ("get_weather", [("location", Jval.jstr "Paris")]), rfl, rfl⟩)
    weatherToolResp rfl

/- ## C3: Completion Backend failures propagate -/

/-- C3: if the `llm.chat` call raises on any iteration the loop can reach
(every earlier scripted response parsed as a tool call), `process`
propagates that exception to its caller: its entire return value is the
raised exception, so no `LoopResult` and none of the accumulated tool-call
records survive the failed invocation. -/
theorem chat_failure_propagates (impls : ToolImpls) (script : Nat → PyResult String)
    (j : Nat) (e : String)
    (hj : j ≤ MAX_ITERATIONS)
    (hpre : ∀ i, i < j → ∃ r p, script i = PyResult.ok r ∧ parse_tool_call r = some p)
    (herr : script j = PyResult.exn e) :
    process impls script = PyResult.exn e := by
  have hpre0 : ∀ i, i < j →
      ∃ r p, script (0 + i) = PyResult.ok r ∧ parse_tool_call r = some p := by
    intro i hi
    simpa using hpre i hi
  have herr0 : script (0 + j) = PyResult.exn e := by simpa using herr
  exact processAux_exn impls script e MAX_ITERATIONS j 0 0 [] hj hpre0 herr0

/-- Script raising on the third chat call, after two tool-call rounds. -/
def timeoutScript : Nat → PyResult String :=
  fun k => if k < 2 then PyResult.ok weatherToolResp else PyResult.exn "Request timed out"

/-- C3 witnessed: two tool-call iterations and then a timeout on the third
chat call make the whole invocation fail with that exception. -/
theorem chat_failure_propagates_witness :
    process stubImpls timeoutScript = PyResult.exn "Request timed out" :=
  chat_failure_propagates stubImpls timeoutScript 2 "Request timed out" (by simp [MAX_ITERATIONS])
    (fun i hi => ⟨weatherToolResp, ("get_weather", [("location", Jval.jstr "Paris")]),
      by simp [timeoutScript, hi], rfl⟩)
    rfl

/- ## C4: a first plain response ends the loop at once -/

/-- C4: when the first scripted response contains no tool-call pattern,
`process` terminates naturally after exactly 1 iteration with an empty
`tool_calls` list, no budget flag, and that first response — after the
residual tool-syntax stripping of `_clean_response` — as the final
answer. -/
theorem first_plain_response_terminates (impls : ToolImpls) (script : Nat → PyResult String)
    (r0 : String)
    (h0 : script 0 = PyResult.ok r0) (hp : parse_tool_call r0 = none) :
    process impls script = PyResult.ok ⟨cleanResponse r0, [], 1, none⟩ := by
  show processAux impls script (7 + 1) 0 0 [] = _
  simp only [processAux, h0, hp, Nat.zero_add]

/-- C4 witnessed on a plain scripted answer. -/
theorem first_plain_response_terminates_witness :
    process stubImpls (fun _ => PyResult.ok "A plain final answer.") =
      PyResult.ok ⟨cleanResponse "A plain final answer.", [], 1, none⟩ :=
  first_plain_response_terminates stubImpls (fun _ => PyResult.ok "A plain final answer.")
    "A plain final answer." rfl rfl

/- ## C6: malformed argument blocks degrade to an empty mapping -/

/-- C6: when a response carries a tool-name token but its argument block is
missing or malformed (not parseable as JSON even after the quote
normalization), `_parse_tool_call` returns the tool with an empty argument
mapping, and the loop dispatches the executor with that empty mapping and
continues — the run proceeds into the next iteration carrying the record,
instead of throwing. -/
theorem malformed_args_empty_mapping (impls : ToolImpls) (script : Nat → PyResult String)
    (r0 : String) (n : String)
    (h0 : script 0 = PyResult.ok r0)
    (hn : findToolName r0 = some n)
    (hbad : findArgsBlock r0 = none ∨
      ∃ b, findArgsBlock r0 = some b ∧ jsonLoads (String.mk (fixQuotes b)) = none) :
    parse_tool_call r0 = some (n, []) ∧
    ∃ out, execute_tool impls n [] = PyResult.ok out ∧
      process impls script = processAux impls script 7 1 1 [⟨n, [], out⟩] := by
  have hargs : argsOf r0 = [] := by
    unfold argsOf
    rcases hbad with hb | ⟨b, hb, hl⟩
    · simp only [hb]
    · simp only [hb, hl]
  have hp : parse_tool_call r0 = some (n, []) := by
    unfold parse_tool_call
    rw [hn, hargs]
  obtain ⟨out, hout⟩ := execute_tool_isOk impls n []
  refine ⟨hp, out, hout, ?_⟩
  show processAux impls script (7 + 1) 0 0 [] = _
  simp only [processAux, h0, hp, hout, Nat.zero_add, List.nil_append]

/-- The Scenario C response: an existing tool with a single-quoted,
invalid argument block. -/
def malformedBlock : List Char :=
  [lbrace, squote] ++ "location".data ++ [squote] ++ ": Paris".data ++ [rbrace]

/-- A scripted response carrying `malformedBlock` as its `ARGS:` block. -/
def malformedArgsResp : String :=
  "TOOL: get_weather\nARGS: " ++ String.mk malformedBlock

/-- C6 witnessed on the Scenario C response: the parser yields the empty
mapping and the executor is dispatched with it. -/
theorem malformed_args_empty_mapping_witness :
    parse_tool_call malformedArgsResp = some ("get_weather", []) ∧
    ∃ out, execute_tool stubImpls "get_weather" [] = PyResult.ok out ∧
      process stubImpls (fun _ => PyResult.ok malformedArgsResp) =
        processAux stubImpls (fun _ => PyResult.ok malformedArgsResp) 7 1 1
          [⟨"get_weather", [], out⟩] :=
  malformed_args_empty_mapping stubImpls (fun _ => PyResult.ok malformedArgsResp)
    malformedArgsResp "get_weather" rfl rfl (Or.inr ⟨malformedBlock, rfl, rfl⟩)

/- ## C7: presence of the budget-exhaustion flag -/

/-- C7 counterexample: a natural-termination run whose returned dictionary
has no `max_iterations_reached` key at all (field `none`), so the result
does not contain the claimed fourth component; the flag is neither `true`
nor `false`, it is absent. -/
theorem budget_flag_counterexample :
    process stubImpls (fun _ => PyResult.ok "hello") =
      PyResult.ok ⟨"hello", [], 1, none⟩ ∧
    (none : Option Bool) ≠ some true ∧ (none : Option Bool) ≠ some false :=
  ⟨rfl, by decide, by decide⟩

/-- C7 amended: every `LoopResult` carries the answer text, the tool-call
records and the iteration count, but the budget-exhaustion flag key is
present only on the forced-finish path — where it is `true` and the
iteration count equals the bound — and is absent (not `false`) on natural
termination. -/
theorem budget_flag_presence (impls : ToolImpls) (script : Nat → PyResult String)
    (res : LoopResult)
    (h : process impls script = PyResult.ok res) :
    res.max_iterations_reached = none ∨
      (res.max_iterations_reached = some true ∧ res.iterations = MAX_ITERATIONS) := by
  obtain ⟨extra, _, _, _, _, hflag, _⟩ :=
    processAux_ok_spec impls script MAX_ITERATIONS 0 0 [] res h
  simpa using hflag

/-- C7 amended, witnessed on a natural-termination run. -/
theorem budget_flag_presence_witness :
    (⟨"hello", [], 1, none⟩ : LoopResult).max_iterations_reached = none ∨
      ((⟨"hello", [], 1, none⟩ : LoopResult).max_iterations_reached = some true ∧
        (⟨"hello", [], 1, none⟩ : LoopResult).iterations = MAX_ITERATIONS) :=
  budget_flag_presence stubImpls (fun _ => PyResult.ok "hello") ⟨"hello", [], 1, none⟩ rfl

/- ## C10: result invariants of every successful run -/

/-- C10: every successful run satisfies `1 ≤ iterations ≤ 8` and
`tool_calls.length ≤ iterations`; and the `i`-th record of `tool_calls`
comes from the `i`-th chat response — so each iteration appends at most one
record and the records appear exactly in dispatch order. -/
theorem loop_result_invariants (impls : ToolImpls) (script : Nat → PyResult String)
    (res : LoopResult)
    (h : process impls script = PyResult.ok res) :
    1 ≤ res.iterations ∧ res.iterations ≤ MAX_ITERATIONS ∧
    res.tool_calls.length ≤ res.iterations ∧
    ∀ i, (hi : i < res.tool_calls.length) →
      ∃ r p out, script i = PyResult.ok r ∧ parse_tool_call r = some p ∧
        execute_tool impls p.1 p.2 = PyResult.ok out ∧
        res.tool_calls.get ⟨i, hi⟩ = ⟨p.1, p.2, out⟩ := by
  obtain ⟨resp, tcs, iters, flag⟩ := res
  obtain ⟨extra, hcalls, hub, hlb, h1, _, horder⟩ :=
    processAux_ok_spec impls script MAX_ITERATIONS 0 0 [] ⟨resp, tcs, iters, flag⟩ h
  simp only at hcalls hub hlb h1 horder ⊢
  simp only [List.nil_append] at hcalls
  subst hcalls
  refine ⟨?_, by simpa using hub, by simpa using hlb, ?_⟩
  · exact h1 (by simp [MAX_ITERATIONS])
  · intro i hi
    obtain ⟨r, p, out, hsr, hpp, hee, hgg⟩ := horder i hi
    exact ⟨r, p, out, by simpa using hsr, hpp, hee, hgg⟩

/-- C10 witnessed: the part `1 ≤ iterations` applied to a concrete
two-iteration run (one `get_weather` call, then a plain answer). -/
theorem loop_result_invariants_witness :
    1 ≤ (⟨"Done.",
      [⟨"get_weather", [("location", Jval.jstr "Paris")], [("temperature", Jval.jnum "20")]⟩],
      2, none⟩ : LoopResult).iterations :=
  (loop_result_invariants stubImpls
    (fun k => if k = 0 then PyResult.ok weatherToolResp else PyResult.ok "Done.")
    ⟨"Done.",
      [⟨"get_weather", [("location", Jval.jstr "Paris")], [("temperature", Jval.jnum "20")]⟩],
      2, none⟩ rfl).1
/- ## C8: idempotence of the response cleanup -/

/-- A line is free of both cleanup markers. -/
def noMarkers (l : List Char) : Prop :=
  isToolLine l = false ∧ isArgsLine l = false

theorem cleanLines_no_markers :
    ∀ (ls : List (List Char)) (b : Bool), ∀ l ∈ cleanLines ls b, noMarkers l := by
  intro ls
  induction ls with
  | nil => intro b l hl; simp [cleanLines] at hl
  | cons l0 ls ih =>
    intro b l hl
    simp only [cleanLines] at hl
    by_cases h1 : isToolLine l0
    · rw [if_pos h1] at hl; exact ih true l hl
    · rw [if_neg h1] at hl
      by_cases h2 : isArgsLine l0
      · rw [if_pos h2] at hl; exact ih b l hl
      · rw [if_neg h2] at hl
        by_cases h3 : (b && stripStartsLbrace l0) = true
        · rw [if_pos h3] at hl; exact ih false l hl
        · rw [if_neg h3] at hl
          rw [List.mem_cons] at hl
          rcases hl with rfl | hl
          · exact ⟨by simpa using h1, by simpa using h2⟩
          · exact ih false l hl

theorem cleanLines_id :
    ∀ ls : List (List Char), (∀ l ∈ ls, noMarkers l) → cleanLines ls false = ls := by
  intro ls
  induction ls with
  | nil => intro _; rfl
  | cons l0 ls ih =>
    intro hall
    obtain ⟨h1, h2⟩ := hall l0 (by simp)
    simp only [cleanLines, h1, h2, Bool.false_and, Bool.false_eq_true, if_false]
    rw [ih (fun l hl => hall l (by simp [hl]))]

theorem cleanLines_mem :
    ∀ (ls : List (List Char)) (b : Bool), ∀ l ∈ cleanLines ls b, l ∈ ls := by
  intro ls
  induction ls with
  | nil => intro b l hl; simp [cleanLines] at hl
  | cons l0 ls ih =>
    intro b l hl
    simp only [cleanLines] at hl
    by_cases h1 : isToolLine l0
    · rw [if_pos h1] at hl; exact List.mem_cons_of_mem _ (ih true l hl)
    · rw [if_neg h1] at hl
      by_cases h2 : isArgsLine l0
      · rw [if_pos h2] at hl; exact List.mem_cons_of_mem _ (ih b l hl)
      · rw [if_neg h2] at hl
        by_cases h3 : (b && stripStartsLbrace l0) = true
        · rw [if_pos h3] at hl; exact List.mem_cons_of_mem _ (ih false l hl)
        · rw [if_neg h3] at hl
          rw [List.mem_cons] at hl
          rcases hl with rfl | hl
          · exact List.mem_cons_self _ _
          · exact List.mem_cons_of_mem _ (ih false l hl)

theorem splitNl_ne_nil : ∀ x : List Char, splitNl x ≠ [] := by
  intro x
  cases x with
  | nil => simp [splitNl]
  | cons c cs =>
    simp only [splitNl]
    by_cases h : c = '\n'
    · simp [h]
    · rw [if_neg h]
      cases hs : splitNl cs with
      | nil => simp [consHead]
      | cons l ls => simp [consHead]

theorem splitNl_no_nl : ∀ x : List Char, ∀ l ∈ splitNl x, '\n' ∉ l := by
  intro x
  induction x with
  | nil => intro l hl; simp [splitNl] at hl; simp [hl]
  | cons c cs ih =>
    intro l hl
    simp only [splitNl] at hl
    by_cases h : c = '\n'
    · rw [if_pos h] at hl
      rw [List.mem_cons] at hl
      rcases hl with rfl | hl
      · simp
      · exact ih l hl
    · rw [if_neg h] at hl
      cases hs : splitNl cs with
      | nil => exact absurd hs (splitNl_ne_nil cs)
      | cons l0 ls =>
        rw [hs] at hl
        simp only [consHead, List.mem_cons] at hl
        rcases hl with rfl | hl
        · intro hmem
          rw [List.mem_cons] at hmem
          rcases hmem with hmem | hmem
          · exact h hmem.symm
          · exact ih l0 (by simp [hs]) hmem
        · exact ih l (by simp [hs, hl])

theorem joinNl_cons (l : List Char) (ls : List (List Char)) (h : ls ≠ []) :
    joinNl (l :: ls) = l ++ '\n' :: joinNl ls := by
  cases ls with
  | nil => exact absurd rfl h
  | cons l2 ls2 => rfl

theorem joinNl_consHead (c : Char) (ls : List (List Char)) :
    joinNl (consHead c ls) = c :: joinNl ls := by
  cases ls with
  | nil => rfl
  | cons l ls2 =>
    cases ls2 with
    | nil => rfl
    | cons l3 ls3 => rfl

theorem joinNl_splitNl : ∀ x : List Char, joinNl (splitNl x) = x := by
  intro x
  induction x with
  | nil => rfl
  | cons c cs ih =>
    simp only [splitNl]
    by_cases h : c = '\n'
    · rw [if_pos h, joinNl_cons [] (splitNl cs) (splitNl_ne_nil cs), ih, h]
      rfl
    · rw [if_neg h, joinNl_consHead, ih]

theorem splitNl_of_no_nl : ∀ x : List Char, '\n' ∉ x → splitNl x = [x] := by
  intro x
  induction x with
  | nil => intro _; rfl
  | cons c cs ih =>
    intro hn
    have hc : c ≠ '\n' := fun hh => hn (by simp [hh])
    have hcs : '\n' ∉ cs := fun hh => hn (by simp [hh])
    simp only [splitNl, if_neg hc, ih hcs, consHead]

theorem splitNl_append_nl : ∀ (h : List Char) (y : List Char), '\n' ∉ h →
    splitNl (h ++ '\n' :: y) = h :: splitNl y := by
  intro h
  induction h with
  | nil => intro y _; simp [splitNl]
  | cons c cs ih =>
    intro y hn
    have hc : c ≠ '\n' := fun hh => hn (by simp [hh])
    have hcs : '\n' ∉ cs := fun hh => hn (by simp [hh])
    simp only [List.cons_append, splitNl, if_neg hc]
    show consHead c (splitNl (cs ++ '
' :: y)) = (c :: cs) :: splitNl y
    rw [ih y hcs]
    rfl

theorem splitNl_joinNl : ∀ ls : List (List Char), ls ≠ [] →
    (∀ l ∈ ls, '\n' ∉ l) → splitNl (joinNl ls) = ls := by
  intro ls
  induction ls with
  | nil => intro h; exact absurd rfl h
  | cons l ls2 ih =>
    intro _ hall
    cases ls2 with
    | nil =>
      show splitNl (joinNl [l]) = [l]
      exact splitNl_of_no_nl l (hall l (by simp))
    | cons l2 ls3 =>
      rw [joinNl_cons l (l2 :: ls3) (by simp)]
      rw [splitNl_append_nl l (joinNl (l2 :: ls3)) (hall l (by simp))]
      rw [ih (by simp) (fun m hm => hall m (by simp [hm]))]

theorem ciStarts_nil_iff (kw : List Char) : ciStarts kw [] = true → kw = [] := by
  cases kw with
  | nil => intro _; rfl
  | cons k0 ks => intro h; simp [ciStarts] at h

theorem ciStarts_take : ∀ (kw x : List Char) (k : Nat),
    ciStarts kw (x.take k) = true → ciStarts kw x = true := by
  intro kw
  induction kw with
  | nil => intro x k _; rfl
  | cons k0 ks ih =>
    intro x k h
    cases x with
    | nil => simpa using h
    | cons c cs =>
      cases k with
      | zero => simp [ciStarts] at h
      | succ j =>
        rw [List.take_succ_cons] at h
        simp only [ciStarts, Bool.and_eq_true] at h ⊢
        exact ⟨h.1, ih cs j h.2⟩

theorem lineMatch_cons_ws (kw : List Char) (c : Char) (z : List Char) (hc : pyWS c = true) :
    lineMatchKw kw (c :: z) = lineMatchKw kw z := by
  simp [lineMatchKw, List.dropWhile, hc]

theorem lineMatch_take : ∀ (kw l : List Char) (k : Nat),
    lineMatchKw kw (l.take k) = true → lineMatchKw kw l = true := by
  intro kw l
  induction l with
  | nil => intro k h; simpa using h
  | cons c cs ih =>
    intro k h
    cases k with
    | zero =>
      simp only [List.take_zero] at h
      have hkw : kw = [] := ciStarts_nil_iff kw (by simpa [lineMatchKw] using h)
      subst hkw
      cases hd : (c :: cs).dropWhile pyWS <;> simp [lineMatchKw, hd, ciStarts]
    | succ j =>
      rw [List.take_succ_cons] at h
      by_cases hc : pyWS c = true
      · rw [lineMatch_cons_ws kw c (cs.take j) hc] at h
        rw [lineMatch_cons_ws kw c cs hc]
        exact ih j h
      · have hc2 : pyWS c = false := by simpa using hc
        simp only [lineMatchKw, List.dropWhile, hc2] at h ⊢
        exact ciStarts_take kw (c :: cs) (j + 1) (by rwa [List.take_succ_cons])

theorem noMarkers_take (l : List Char) (k : Nat) (h : noMarkers l) : noMarkers (l.take k) := by
  obtain ⟨h1, h2⟩ := h
  constructor
  · cases ht : isToolLine (l.take k) with
    | false => rfl
    | true => exact absurd (lineMatch_take _ l k ht) (by simp [isToolLine] at h1 ⊢; exact h1)
  · cases ht : isArgsLine (l.take k) with
    | false => rfl
    | true => exact absurd (lineMatch_take _ l k ht) (by simp [isArgsLine] at h2 ⊢; exact h2)

/-- All lines of a character list are free of the cleanup markers. -/
def noMarkersAll (x : List Char) : Prop := ∀ l ∈ splitNl x, noMarkers l

theorem noMarkersAll_dropWhile (x : List Char) (hall : noMarkersAll x) :
    noMarkersAll (x.dropWhile pyWS) := by
  induction x with
  | nil => simpa using hall
  | cons c cs ih =>
    by_cases hc : pyWS c = true
    · rw [show (c :: cs).dropWhile pyWS = cs.dropWhile pyWS by simp [List.dropWhile, hc]]
      refine ih ?_
      by_cases hnl : c = '\n'
      · intro l hl
        exact hall l (by simp only [splitNl, if_pos hnl]; exact List.mem_cons_of_mem _ hl)
      · cases hs : splitNl cs with
        | nil => exact absurd hs (splitNl_ne_nil cs)
        | cons l0 ls =>
          intro l hl
          rw [hs, List.mem_cons] at hl
          have hsp : splitNl (c :: cs) = (c :: l0) :: ls := by
            simp only [splitNl, if_neg hnl, hs, consHead]
          rcases hl with rfl | hl
          · have hP : noMarkers (c :: l) := hall (c :: l) (by simp [hsp])
            exact ⟨by rw [isToolLine, ← lineMatch_cons_ws _ c l hc]; exact hP.1,
                   by rw [isArgsLine, ← lineMatch_cons_ws _ c l hc]; exact hP.2⟩
          · exact hall l (by simp [hsp, hl])
    · rwa [show (c :: cs).dropWhile pyWS = c :: cs by
        simp [List.dropWhile, show pyWS c = false by simpa using hc]]

theorem dropTrail_take : ∀ x : List Char, ∃ k, dropTrailWS x = x.take k := by
  intro x
  induction x with
  | nil => exact ⟨0, rfl⟩
  | cons c cs ih =>
    obtain ⟨k, hk⟩ := ih
    by_cases hc : (pyWS c && (dropTrailWS cs).isEmpty) = true
    · exact ⟨0, by simp [dropTrailWS, hc]⟩
    · refine ⟨k + 1, ?_⟩
      have hstep : dropTrailWS (c :: cs) = c :: dropTrailWS cs := by
        simp only [dropTrailWS]
        rw [if_neg hc]
      rw [hstep, hk, List.take_succ_cons]

theorem exists_split_at_nl : ∀ x : List Char, '\n' ∈ x →
    ∃ h x2, x = h ++ '\n' :: x2 ∧ '\n' ∉ h := by
  intro x
  induction x with
  | nil => intro h; simp at h
  | cons c cs ih =>
    intro hmem
    by_cases hc : c = '\n'
    · exact ⟨[], cs, by rw [hc]; rfl, by simp⟩
    · have hcs : '\n' ∈ cs := by
        rw [List.mem_cons] at hmem
        rcases hmem with h | h
        · exact absurd h.symm hc
        · exact h
      obtain ⟨h, x2, hx, hh⟩ := ih hcs
      refine ⟨c :: h, x2, by rw [hx]; rfl, ?_⟩
      intro hm
      rw [List.mem_cons] at hm
      rcases hm with hm | hm
      · exact hc hm.symm
      · exact hh hm

theorem noMarkersAll_take : ∀ (n : Nat) (x : List Char), x.length ≤ n → noMarkersAll x →
    ∀ k, noMarkersAll (x.take k) := by
  intro n
  induction n with
  | zero =>
    intro x hlen hall k
    have hx : x = [] := List.eq_nil_of_length_eq_zero (by omega)
    subst hx
    simpa using hall
  | succ n ihn =>
    intro x hlen hall k
    by_cases hnl : '\n' ∈ x
    · obtain ⟨h, x2, hx, hh⟩ := exists_split_at_nl x hnl
      subst hx
      have hsplit : splitNl (h ++ '\n' :: x2) = h :: splitNl x2 := splitNl_append_nl h x2 hh
      have hPh : noMarkers h := hall h (by rw [hsplit]; simp)
      have hall2 : noMarkersAll x2 := by
        intro l hl
        exact hall l (by rw [hsplit]; exact List.mem_cons_of_mem _ hl)
      have hlen2 : x2.length ≤ n := by
        rw [List.length_append, List.length_cons] at hlen
        omega
      by_cases hk : k ≤ h.length
      · have htk : (h ++ '\n' :: x2).take k = h.take k := by
          rw [List.take_append_eq_append_take, show k - h.length = 0 by omega]
          simp
        rw [htk]
        intro l hl
        have hnlh : '\n' ∉ h.take k := fun hm => hh (List.take_subset k h hm)
        rw [splitNl_of_no_nl _ hnlh, List.mem_singleton] at hl
        subst hl
        exact noMarkers_take h k hPh
      · have htk : (h ++ '\n' :: x2).take k =
            h ++ '\n' :: x2.take (k - h.length - 1) := by
          rw [List.take_append_eq_append_take]
          rw [List.take_of_length_le (by omega)]
          congr 1
          rw [show k - h.length = (k - h.length - 1) + 1 by omega]
          rfl
        rw [htk]
        intro l hl
        rw [splitNl_append_nl h _ hh, List.mem_cons] at hl
        rcases hl with rfl | hl
        · exact hPh
        · exact ihn x2 hlen2 hall2 (k - h.length - 1) l hl
    · intro l hl
      have hnl2 : '\n' ∉ x.take k := fun hm => hnl (List.take_subset k x hm)
      rw [splitNl_of_no_nl _ hnl2, List.mem_singleton] at hl
      subst hl
      have hP : noMarkers x := hall x (by rw [splitNl_of_no_nl x hnl]; simp)
      exact noMarkers_take x k hP

theorem noMarkersAll_pyStrip (x : List Char) (h : noMarkersAll x) :
    noMarkersAll (pyStrip x) := by
  have h2 := noMarkersAll_dropWhile x h
  obtain ⟨k, hk⟩ := dropTrail_take (x.dropWhile pyWS)
  unfold pyStrip
  rw [hk]
  exact noMarkersAll_take (x.dropWhile pyWS).length _ le_rfl h2 k

theorem dropWhile_head_not (x : List Char) :
    x.dropWhile pyWS = [] ∨ ∃ c cs, x.dropWhile pyWS = c :: cs ∧ pyWS c = false := by
  induction x with
  | nil => exact Or.inl rfl
  | cons c cs ih =>
    by_cases hc : pyWS c = true
    · rw [show (c :: cs).dropWhile pyWS = cs.dropWhile pyWS by simp [List.dropWhile, hc]]
      exact ih
    · have hc2 : pyWS c = false := by simpa using hc
      exact Or.inr ⟨c, cs, by simp [List.dropWhile, hc2], hc2⟩

theorem dropTrail_idem : ∀ z : List Char, dropTrailWS (dropTrailWS z) = dropTrailWS z := by
  intro z
  induction z with
  | nil => rfl
  | cons c cs ih =>
    by_cases hc : (pyWS c && (dropTrailWS cs).isEmpty) = true
    · rw [show dropTrailWS (c :: cs) = [] from by simp only [dropTrailWS]; rw [if_pos hc]]
      rfl
    · have hstep : dropTrailWS (c :: cs) = c :: dropTrailWS cs := by
        simp only [dropTrailWS]
        rw [if_neg hc]
      rw [hstep]
      simp only [dropTrailWS]
      rw [ih, if_neg hc]

theorem dropTrail_head (c : Char) (cs : List Char) (d : Char) (ds : List Char)
    (h : dropTrailWS (c :: cs) = d :: ds) : d = c := by
  by_cases hc : (pyWS c && (dropTrailWS cs).isEmpty) = true
  · rw [show dropTrailWS (c :: cs) = [] from by simp only [dropTrailWS]; rw [if_pos hc]] at h
    cases h
  · rw [show dropTrailWS (c :: cs) = c :: dropTrailWS cs from by
      simp only [dropTrailWS]; rw [if_neg hc]] at h
    injection h with h1 _
    exact h1.symm

theorem pyStrip_idem (y : List Char) : pyStrip (pyStrip y) = pyStrip y := by
  unfold pyStrip
  rcases dropWhile_head_not y with hw | ⟨c, cs, hw, hc⟩
  · rw [hw]
    rfl
  · rw [hw]
    cases hd : dropTrailWS (c :: cs) with
    | nil => rfl
    | cons d ds =>
      have hdc : d = c := dropTrail_head c cs d ds hd
      have hcd : pyWS d = false := by rw [hdc]; exact hc
      rw [show (d :: ds).dropWhile pyWS = d :: ds from by simp [List.dropWhile, hcd]]
      rw [← hd, dropTrail_idem]

theorem cleanResponseL_of_noMarkers (x : List Char) (hx : noMarkersAll x) :
    cleanResponseL x = pyStrip x := by
  unfold cleanResponseL
  rw [cleanLines_id (splitNl x) hx, joinNl_splitNl]

theorem cleanResponseL_idem (x : List Char) :
    cleanResponseL (cleanResponseL x) = cleanResponseL x := by
  have hPL := cleanLines_no_markers (splitNl x) false
  have hnlL : ∀ l ∈ cleanLines (splitNl x) false, '\n' ∉ l :=
    fun l hl => splitNl_no_nl x l (cleanLines_mem (splitNl x) false l hl)
  by_cases hLnil : cleanLines (splitNl x) false = []
  · rw [show cleanResponseL x = pyStrip (joinNl (cleanLines (splitNl x) false)) from rfl, hLnil]
    rfl
  · have hSJ : splitNl (joinNl (cleanLines (splitNl x) false)) = cleanLines (splitNl x) false :=
      splitNl_joinNl _ hLnil hnlL
    have hAllJ : noMarkersAll (joinNl (cleanLines (splitNl x) false)) := by
      intro l hl
      rw [hSJ] at hl
      exact hPL l hl
    have hAllT : noMarkersAll (pyStrip (joinNl (cleanLines (splitNl x) false))) :=
      noMarkersAll_pyStrip _ hAllJ
    show cleanResponseL (pyStrip (joinNl (cleanLines (splitNl x) false))) = _
    rw [cleanResponseL_of_noMarkers _ hAllT, pyStrip_idem]
    rfl

/-- C8: `_clean_response` is idempotent: applying it to an already-cleaned
string returns it unchanged, with no double-stripping artifacts. -/
theorem clean_response_idempotent (s : String) :
    cleanResponse (cleanResponse s) = cleanResponse s := by
  show String.mk (cleanResponseL (cleanResponseL s.data)) = String.mk (cleanResponseL s.data)
  rw [cleanResponseL_idem]

/-- C2 applied at a concrete tool name and argument mapping. -/
theorem execute_tool_never_raises_witness :
    ∃ result : Jobj, execute_tool stubImpls "get_weather" [] = PyResult.ok result :=
  execute_tool_never_raises stubImpls "get_weather" []

/-- C8 applied at a concrete string still carrying tool-call syntax. -/
theorem clean_response_idempotent_witness :
    cleanResponse (cleanResponse "TOOL: get_weather\nARGS: placeholder\n  The answer.  ") =
      cleanResponse "TOOL: get_weather\nARGS: placeholder\n  The answer.  " :=
  clean_response_idempotent "TOOL: get_weather\nARGS: placeholder\n  The answer.  "
